import Mathlib

/-!
Verification of the Plannify (Wexly) background-notification subsystem.

The development shallowly embeds the scheduling core of the repository:

* `parseTimeToDate` (lib/background-notifications.ts, two shipped variants
  `_v0` and `_v1`) — conversion of a clock-time string to an absolute
  future instant;
* the service-worker scheduler (`public/sw.js`): the
  `scheduledNotifications` map, `scheduleNotification`,
  `cancelScheduledNotification`, `showNotification` and the timer
  (`setTimeout` / `clearTimeout`) discipline;
* the foreground `BackgroundNotificationManager` (`requestPermission`,
  `scheduleNotification`, `cancelNotification`).

Instants are modelled as integer milliseconds on an idealised uniform
calendar (86 400 000 ms per day, the local-time days JS `Date` exposes;
DST shifts are outside the model).  JS `NaN` results of `parseInt` are
modelled by `Option`.  Console/alert output is modelled as explicit
effect lists so that "reported, not thrown" properties are statable.
-/

/-! ## JS string primitives (char-list level) -/

/-- The whitespace characters relevant to JS `String.prototype.trim`
for the inputs this code base handles (ASCII whitespace). -/
def jsIsSpace (c : Char) : Bool :=
  c = ' ' ∨ c = '\t' ∨ c = '\n' ∨ c = '\r'

/-- JS `trim`: drop whitespace from both ends. -/
def jsTrim (l : List Char) : List Char :=
  ((l.dropWhile jsIsSpace).reverse.dropWhile jsIsSpace).reverse

/-- Does `hay` start with `pat`? -/
def listStartsWith : List Char → List Char → Bool
  | _, [] => true
  | [], _ :: _ => false
  | c :: cs, p :: ps => c = p && listStartsWith cs ps

/-- JS `String.prototype.includes`: `pat` occurs as a contiguous
substring of `hay`. -/
def listIncludes : List Char → List Char → Bool
  | [], pat => pat.isEmpty
  | c :: t, pat => listStartsWith (c :: t) pat || listIncludes t pat

/-- ASCII lowering, the fragment of JS `toLowerCase` exercised here. -/
def asciiLower (c : Char) : Char :=
  if 'A' ≤ c ∧ c ≤ 'Z' then Char.ofNat (c.toNat + 32) else c

/-- JS `split(':')`: always returns at least one (possibly empty) part. -/
def splitOnColon : List Char → List (List Char)
  | [] => [[]]
  | c :: rest =>
    let r := splitOnColon rest
    if c = ':' then [] :: r
    else
      match r with
      | [] => [[c]]
      | h :: t => (c :: h) :: t

/-- The effect of `replace(/AM|PM|am|pm/gi, '')`: scan left to right and
delete every (case-insensitive) occurrence of `am` or `pm`. -/
def removeMeridiem : List Char → List Char
  | [] => []
  | [c] => [c]
  | c1 :: c2 :: rest =>
    if (asciiLower c1 = 'a' ∨ asciiLower c1 = 'p') ∧ asciiLower c2 = 'm' then
      removeMeridiem rest
    else
      c1 :: removeMeridiem (c2 :: rest)

/-! ## JS `parseInt` -/

def isDecDigit (c : Char) : Bool := '0' ≤ c && c ≤ '9'

def isHexDigit (c : Char) : Bool :=
  isDecDigit c || ('a' ≤ c && c ≤ 'f') || ('A' ≤ c && c ≤ 'F')

def decDigitVal (c : Char) : Nat := c.toNat - '0'.toNat

def hexDigitVal (c : Char) : Nat :=
  if isDecDigit c then decDigitVal c
  else if 'a' ≤ c ∧ c ≤ 'f' then c.toNat - 'a'.toNat + 10
  else c.toNat - 'A'.toNat + 10

def decToNat (ds : List Char) : Nat :=
  ds.foldl (fun a c => a * 10 + decDigitVal c) 0

def hexToNat (ds : List Char) : Nat :=
  ds.foldl (fun a c => a * 16 + hexDigitVal c) 0

/-- JS `parseInt(s)` (radix unspecified): skip leading whitespace, read an
optional sign, honour a `0x`/`0X` hex prefix, then consume the longest
run of digits; `none` models `NaN` (no digits consumed). -/
def jsParseInt (s : List Char) : Option Int :=
  let s1 := s.dropWhile jsIsSpace
  let sgn : Int := match s1 with | '-' :: _ => -1 | _ => 1
  let s2 : List Char :=
    match s1 with
    | '-' :: t => t
    | '+' :: t => t
    | _ => s1
  match s2 with
  | '0' :: c :: t =>
    if c = 'x' ∨ c = 'X' then
      let ds := t.takeWhile isHexDigit
      if ds.isEmpty then none else some (sgn * Int.ofNat (hexToNat ds))
    else
      let ds := (('0' :: c :: t).takeWhile isDecDigit)
      some (sgn * Int.ofNat (decToNat ds))
  | _ =>
    let ds := s2.takeWhile isDecDigit
    if ds.isEmpty then none else some (sgn * Int.ofNat (decToNat ds))

/-! ## Idealised JS `Date` arithmetic (integer milliseconds) -/

def msPerDay : Int := 86400000

/-- Start of the (uniform) day containing `t`. -/
def dayFloor (t : Int) : Int := t - t.emod msPerDay

/-- `d.setHours(h, m, s, ms)` on a date holding instant `t`: keep the
day, replace the time-of-day fields. -/
def setHours (t h m s ms : Int) : Int :=
  dayFloor t + h * 3600000 + m * 60000 + s * 1000 + ms

/-- `d.setMinutes(d.getMinutes() + k)` (JS normalises overflow). -/
def addMinutes (t k : Int) : Int := t + k * 60000

/-- `d.setDate(d.getDate() + k)` (JS normalises overflow). -/
def addDays (t k : Int) : Int := t + k * msPerDay

/-! ## `parseTimeToDate` — both shipped variants -/

/-- One console record emitted by the library code. -/
inductive JsLog
  | consoleError (msg : String)
  | consoleLog (msg : String)
deriving DecidableEq

/-- `parts[1] ? parseInt(parts[1]) : 0` — an absent or empty (falsy)
second part yields `0`. -/
def minutesOfParts (parts : List (List Char)) : Option Int :=
  match parts with
  | _ :: p1 :: _ => if p1 = [] then some 0 else jsParseInt p1
  | _ => some 0

/-- The shared body of the 12-hour branch (part_000 lines 248–255,
part_001 lines 166–170): take hours from the first `:`-part, minutes
from the second, then apply the two normalisation conditionals
`if (isPM && hours !== 12) hours += 12` and
`if (!isPM && hours === 12) hours = 0` (on `NaN`, i.e. `none`, both
leave the value unchanged, as in JS). -/
def hourMinute12 (isPM : Bool) (parts : List (List Char)) :
    Option Int × Option Int :=
  let hours0 := jsParseInt (parts.headD [])
  let minutes := minutesOfParts parts
  let hours1 := if isPM = true ∧ hours0 ≠ some 12 then hours0.map (· + 12) else hours0
  let hours2 := if isPM = false ∧ hours1 = some 12 then some 0 else hours1
  (hours2, minutes)

/-- Hour/minute extraction of `parseTimeToDate` in
`lib/background-notifications.ts` (part_000, lines 238–262).  The
12-hour branch is taken when the trimmed string contains one of the
exact substrings `AM`, `PM`, `am`, `pm`. -/
def parseHM_v0 (timeStr : String) : Option Int × Option Int :=
  let ts := jsTrim timeStr.toList
  if listIncludes ts ['A', 'M'] || listIncludes ts ['P', 'M'] ||
     listIncludes ts ['a', 'm'] || listIncludes ts ['p', 'm'] then
    hourMinute12 (listIncludes (ts.map asciiLower) ['p', 'm'])
      (splitOnColon (jsTrim (removeMeridiem ts)))
  else
    let parts := splitOnColon ts
    (jsParseInt (parts.headD []), minutesOfParts parts)

/-- Hour/minute extraction of the second shipped variant (part_001,
lines 159–175): identical except that 12-hour detection lowercases the
string first, so mixed-case markers such as `aM` are recognised. -/
def parseHM_v1 (timeStr : String) : Option Int × Option Int :=
  let ts := jsTrim timeStr.toList
  let lower := ts.map asciiLower
  if listIncludes lower ['a', 'm'] || listIncludes lower ['p', 'm'] then
    hourMinute12 (listIncludes lower ['p', 'm'])
      (splitOnColon (jsTrim (removeMeridiem ts)))
  else
    let parts := splitOnColon ts
    (jsParseInt (parts.headD []), minutesOfParts parts)

/-- The validation test of lines 265 / 177:
`isNaN(hours) || isNaN(minutes) || hours < 0 || hours > 23 || minutes < 0 || minutes > 59`. -/
def timeInvalid : Option Int × Option Int → Bool
  | (some h, some m) => h < 0 ∨ 23 < h ∨ m < 0 ∨ 59 < m
  | _ => true

/-- `parseTimeToDate` of part_000 (lines 234–282): parse, validate with
a now+1-minute fallback on failure (reported on the console, never
thrown — the embedding is a total function), set the time of day with
seconds and milliseconds forced to 0, and roll forward one day when the
result is not strictly after `now`. -/
def parseTimeToDate_v0 (timeStr : String) (now : Int) : Int × List JsLog :=
  match parseHM_v0 timeStr with
  | (some hours, some minutes) =>
    if hours < 0 ∨ 23 < hours ∨ minutes < 0 ∨ 59 < minutes then
      (addMinutes now 1, [JsLog.consoleError "Invalid time format:"])
    else
      let scheduledTime := setHours now hours minutes 0 0
      if scheduledTime ≤ now then
        (addDays scheduledTime 1,
         [JsLog.consoleLog "⏭️ Time has passed today, scheduling for tomorrow"])
      else
        (scheduledTime, [])
  | _ => (addMinutes now 1, [JsLog.consoleError "Invalid time format:"])

/-- `parseTimeToDate` of part_001 (lines 155–190): same computation on
the `parseHM_v1` front end, with no console output. -/
def parseTimeToDate_v1 (timeStr : String) (now : Int) : Int × List JsLog :=
  match parseHM_v1 timeStr with
  | (some hours, some minutes) =>
    if hours < 0 ∨ 23 < hours ∨ minutes < 0 ∨ 59 < minutes then
      (addMinutes now 1, [])
    else
      let scheduledTime := setHours now hours minutes 0 0
      if scheduledTime ≤ now then (addDays scheduledTime 1, [])
      else (scheduledTime, [])
  | _ => (addMinutes now 1, [])

/-! ## Service-worker scheduler (`public/sw.js`, lines 108–208)

The `scheduledNotifications` map is modelled as an association list in
insertion order (JS `Map` iteration order); the armed `setTimeout`
callbacks are modelled as a list of `ArmedTimer`s carrying the values
the callback closed over, with `nextTimerId` supplying fresh timeout
handles.  `shown` records every `showNotification` call. -/

/-- A value of the `scheduledNotifications` map (sw.js lines 161–166). -/
structure SWItem where
  timeoutId : Nat
  title : String
  body : String
  scheduledTime : Int
deriving DecidableEq

/-- An armed `setTimeout` callback: its handle and the captured
`title`, `body`, `id` (sw.js lines 155–159). -/
structure ArmedTimer where
  timeoutId : Nat
  id : String
  title : String
  body : String
deriving DecidableEq

/-- The observable fields of one rendered notification
(sw.js lines 183–201; `icon`, `badge`, `vibrate`, `actions`, `data`
are constants and omitted). -/
structure ShownNotification where
  title : String
  body : String
  tag : String
  requireInteraction : Bool
  silent : Bool
deriving DecidableEq

/-- `showNotification(title, body, tag)` (sw.js lines 180–208):
`tag: tag || 'activity-reminder'` — the empty string is the only falsy
string, so it is replaced by the default tag. -/
def showNotification (title body tag : String) : ShownNotification :=
  { title := title
    body := body
    tag := if tag = "" then "activity-reminder" else tag
    requireInteraction := true
    silent := false }

/-- The service-worker state: the Store, the armed timers, the next
fresh timeout handle, and the log of rendered notifications. -/
structure SWState where
  store : List (String × SWItem)
  armedTimers : List ArmedTimer
  nextTimerId : Nat
  shown : List ShownNotification
deriving DecidableEq

/-- The state at worker start: `const scheduledNotifications = new Map()`. -/
def swInit : SWState := ⟨[], [], 0, []⟩

/-- JS `Map.prototype.get`. -/
def mapGet (l : List (String × SWItem)) (k : String) : Option SWItem :=
  (l.find? (fun p => p.1 = k)).map (fun p => p.2)

/-- JS `Map.prototype.set`: replace in place if the key is present,
else append. -/
def mapSet (l : List (String × SWItem)) (k : String) (v : SWItem) :
    List (String × SWItem) :=
  if l.any (fun p => p.1 = k) then
    l.map (fun p => if p.1 = k then (k, v) else p)
  else
    l ++ [(k, v)]

/-- `cancelScheduledNotification(id)` (sw.js lines 171–178): if the
Store has an entry, `clearTimeout` its handle and delete the entry;
otherwise a no-op. -/
def cancelScheduledNotification (s : SWState) (id : String) : SWState :=
  match (s.store.find? (fun p => p.1 = id)) with
  | some e =>
    { s with
      armedTimers := s.armedTimers.filter (fun t => ¬ t.timeoutId = e.2.timeoutId)
      store := s.store.filter (fun p => ¬ p.1 = id) }
  | none => s

/-- `scheduleNotification(id, title, body, scheduledTime)` (sw.js lines
130–169): cancel any existing entry, compute `delay`, fire immediately
when `delay ≤ 0`, drop the request when `delay > 2147483647`, otherwise
arm a fresh timeout and insert the record. -/
def scheduleNotification (s : SWState) (id title body : String)
    (scheduledTime now : Int) : SWState :=
  let s := cancelScheduledNotification s id
  let delay := scheduledTime - now
  if delay ≤ 0 then
    { s with shown := s.shown ++ [showNotification title body id] }
  else if 2147483647 < delay then
    s
  else
    { s with
      armedTimers := s.armedTimers ++ [⟨s.nextTimerId, id, title, body⟩]
      store := mapSet s.store id ⟨s.nextTimerId, title, body, scheduledTime⟩
      nextTimerId := s.nextTimerId + 1 }

/-- An armed timeout expires: the timer is no longer armed, and its
callback (sw.js lines 155–159) shows the notification and deletes the
Store entry for the captured `id`.  A handle that is not armed
(cleared or already fired) never fires. -/
def fireTimer (s : SWState) (tid : Nat) : SWState :=
  match s.armedTimers.find? (fun t => t.timeoutId = tid) with
  | some t =>
    { s with
      armedTimers := s.armedTimers.filter (fun u => ¬ u.timeoutId = tid)
      shown := s.shown ++ [showNotification t.title t.body t.id]
      store := s.store.filter (fun p => ¬ p.1 = t.id) }
  | none => s

/-- Messages posted to the worker (sw.js lines 112–128; the
`GET_SCHEDULED` reply and `SKIP_WAITING` do not touch the Store). -/
inductive SWMessage
  | scheduleMsg (id title body : String) (scheduledTime : Int)
  | cancelMsg (id : String)
  | skipWaiting
deriving DecidableEq

/-- The worker's `message` listener dispatch (sw.js lines 112–128);
`now` is `Date.now()` at processing time. -/
def handleMessage (s : SWState) (m : SWMessage) (now : Int) : SWState :=
  match m with
  | .scheduleMsg id title body t => scheduleNotification s id title body t now
  | .cancelMsg id => cancelScheduledNotification s id
  | .skipWaiting => s

/-- One event processed by the worker's single-threaded event loop. -/
inductive SWEvent
  | msg (m : SWMessage) (now : Int)
  | fire (timeoutId : Nat)

/-- Process one event. -/
def swStep (s : SWState) (e : SWEvent) : SWState :=
  match e with
  | .msg m now => handleMessage s m now
  | .fire tid => fireTimer s tid

/-- Run the worker from start over a finite event sequence. -/
def swRun (es : List SWEvent) : SWState := es.foldl swStep swInit

/-! ## Foreground `BackgroundNotificationManager`
(lib/background-notifications.ts, part_000) -/

/-- `Notification.permission`. -/
inductive NotifPermission
  | granted
  | denied
  | defaultPerm
deriving DecidableEq

/-- Outcome of `Notification.requestPermission()`. -/
inductive PromptOutcome
  | granted
  | denied
  | dismissed
deriving DecidableEq

/-- Manager state after the constructor / any `initialize()` attempts:
support probe result, initialisation flag, whether `this.registration`
is non-null, and whether `active || waiting || installing` exists. -/
structure MgrState where
  isSupported : Bool
  inited : Bool
  hasRegistration : Bool
  swAvailable : Bool
deriving DecidableEq

/-- Observable side effects of the manager. -/
inductive MgrEffect
  | alertMsg (msg : String)
  | promptIssued
  | postMessage (m : SWMessage)
  | testNotification
  | consoleError (msg : String)
deriving DecidableEq

def browserUnsupportedAlert : String :=
  "❌ Your browser does not support notifications.\n\nPlease use:\n• Chrome/Edge (desktop & Android)\n• Firefox\n• Safari (iOS 16.4+)"

def initFailedAlert : String :=
  "❌ Failed to initialize notification service. Please refresh the page and try again."

def notificationsBlockedAlert : String :=
  "❌ Notifications are blocked!\n\nTo enable:\n\n1. Click the 🔒 lock icon in the address bar\n2. Find \"Notifications\" and set to \"Allow\"\n3. Refresh this page\n4. Try again"

def promptDeniedAlert : String :=
  "❌ You blocked notifications. Please enable them in your browser settings."

def promptDismissedAlert : String :=
  "⚠️ Notification permission was dismissed. Please try again."

/-- `sendTestNotification()` (part_000 lines 119–130): shows the test
notification only when a registration exists and permission is granted. -/
def sendTestNotificationEffects (s : MgrState) (perm : NotifPermission) :
    List MgrEffect :=
  if s.hasRegistration = true ∧ perm = .granted then [.testNotification] else []

/-- `requestPermission()` (part_000 lines 69–117).  `initOk` abstracts
the outcome of the `initialize()` attempt made when the manager is not
yet initialised; `prompt` abstracts the user's answer to the (single)
permission prompt, which is reached only in the `default` permission
state. -/
def requestPermission (s : MgrState) (perm : NotifPermission)
    (initOk : Bool) (prompt : PromptOutcome) : Bool × List MgrEffect :=
  if ¬ s.isSupported = true then
    (false, [.alertMsg browserUnsupportedAlert])
  else if ¬ s.inited = true ∧ ¬ initOk = true then
    (false, [.alertMsg initFailedAlert])
  else if perm = .granted then
    (true, sendTestNotificationEffects s perm)
  else if perm = .denied then
    (false, [.alertMsg notificationsBlockedAlert])
  else
    match prompt with
    | .granted => (true, .promptIssued :: sendTestNotificationEffects s .granted)
    | .denied => (false, [.promptIssued, .alertMsg promptDeniedAlert])
    | .dismissed => (false, [.promptIssued, .alertMsg promptDismissedAlert])

/-- `scheduleNotification(id, title, body, scheduledTime)` on the
manager (part_000 lines 132–186), taken at the state reached after its
opening `initialize()` attempt: with a registration, granted permission
and a reachable worker it posts `SCHEDULE_NOTIFICATION` and returns
`true` — the return value does not depend on `scheduledTime`. -/
def mgrScheduleNotification (s : MgrState) (perm : NotifPermission)
    (id title body : String) (scheduledTime : Int) : Bool × List MgrEffect :=
  if ¬ s.hasRegistration = true then
    (false, [.consoleError "❌ Service worker not registered"])
  else if ¬ perm = .granted then
    (false, [.consoleError "❌ Notification permission not granted"])
  else if ¬ s.swAvailable = true then
    (false, [.consoleError "❌ No active service worker found"])
  else
    (true, [.postMessage (.scheduleMsg id title body scheduledTime)])

/-! ## Invariant and input-construction definitions -/

/-- The armed timer a Store entry corresponds to. -/
def entryTimer (p : String × SWItem) : ArmedTimer :=
  ⟨p.2.timeoutId, p.1, p.2.title, p.2.body⟩

/-- Reachable-state invariant of the worker: the armed timers are
exactly (in order) the timers of the Store entries, keys and timeout
handles are distinct, and every handle is below the fresh counter. -/
def SWInv (s : SWState) : Prop :=
  s.armedTimers = s.store.map entryTimer
  ∧ (s.store.map (fun p => p.1)).Nodup
  ∧ (s.store.map (fun p => p.2.timeoutId)).Nodup
  ∧ ∀ p ∈ s.store, p.2.timeoutId < s.nextTimerId

/-! ## Claim C4: 12-hour normalization over all valid inputs -/

def decDigitChar : Nat → Char
  | 0 => '0'
  | 1 => '1'
  | 2 => '2'
  | 3 => '3'
  | 4 => '4'
  | 5 => '5'
  | 6 => '6'
  | 7 => '7'
  | 8 => '8'
  | _ => '9'

/-- Decimal rendering of an hour value below 100. -/
def renderNat (n : Nat) : List Char :=
  if n < 10 then [decDigitChar n] else [decDigitChar (n / 10), decDigitChar (n % 10)]

/-- Two-digit decimal rendering of a minute value. -/
def render2 (n : Nat) : List Char := [decDigitChar (n / 10), decDigitChar (n % 10)]

def meridiemChar1 (pm lo : Bool) : Char :=
  if pm then (if lo then 'p' else 'P') else (if lo then 'a' else 'A')

def meridiemChar2 (lo : Bool) : Char := if lo then 'm' else 'M'

/-- A well-formed 12-hour clock string: hour `h`, optionally `:mm`
(`wm`), an optional space (`sp`), and a meridiem marker whose two
characters are lower- or upper-case according to `lo1`, `lo2`. -/
def mkInput12 (h m : Nat) (pm lo1 lo2 sp wm : Bool) : String :=
  String.mk (renderNat h ++ (if wm then ':' :: render2 m else []) ++
    (if sp then [' '] else []) ++ [meridiemChar1 pm lo1, meridiemChar2 lo2])

/-- The 24-hour hour the claim's normalization table prescribes. -/
def expectedHour (h : Nat) (pm : Bool) : Nat :=
  if pm then (if h = 12 then 12 else h + 12) else (if h = 12 then 0 else h)

/-- Characters admissible in the `h:mm` body of a clock string: not
whitespace, not lowering to `a` or `p` (so the meridiem scrubber leaves
them alone), and not a colon (for the digit groups). -/
def charOk (c : Char) : Bool :=
  !jsIsSpace c && !(asciiLower c == 'a') && !(asciiLower c == 'p') && !(c == ':')

/-! ## Helper lemmas -/

lemma msPerDay_pos : (0 : Int) < msPerDay := by norm_num [msPerDay]

lemma dayFloor_le (t : Int) : dayFloor t ≤ t := by
  have h : 0 ≤ t.emod msPerDay := Int.emod_nonneg t (by norm_num [msPerDay])
  simp only [dayFloor]
  omega

lemma lt_dayFloor_add (t : Int) : t < dayFloor t + msPerDay := by
  have h : t.emod msPerDay < msPerDay := Int.emod_lt_of_pos t msPerDay_pos
  simp only [dayFloor]
  omega

/-- After `cancelScheduledNotification s id`, no Store entry has key `id`. -/
lemma cancel_no_key (s : SWState) (id : String) :
    ∀ p ∈ (cancelScheduledNotification s id).store, ¬ p.1 = id := by
  unfold cancelScheduledNotification
  cases hf : s.store.find? (fun p => p.1 = id) with
  | none =>
    intro p hp
    have := List.find?_eq_none.mp hf p hp
    simpa using this
  | some e =>
    intro p hp
    have := (List.mem_filter.mp hp).2
    simpa using this

/-- The over-capacity branch of `scheduleNotification` returns the state
produced by the opening cancel: nothing is armed, inserted or shown. -/
lemma schedule_overcap_eq_cancel (s : SWState) (id title body : String)
    (t now : Int) (hcap : 2147483647 < t - now) :
    scheduleNotification s id title body t now = cancelScheduledNotification s id := by
  unfold scheduleNotification
  have h1 : ¬ t - now ≤ 0 := by omega
  simp [h1, hcap]

/-- `Map.set` appends when the key is absent. -/
lemma mapSet_of_no_key (l : List (String × SWItem)) (k : String) (v : SWItem)
    (h : ∀ p ∈ l, ¬ p.1 = k) : mapSet l k v = l ++ [(k, v)] := by
  unfold mapSet
  have hany : l.any (fun p => p.1 = k) = false := by
    simp only [List.any_eq_false]
    intro p hp
    simpa using h p hp
  simp [hany]

/-! ## The Store/timer agreement invariant -/

lemma swInv_init : SWInv swInit := by
  refine ⟨rfl, ?_, ?_, ?_⟩ <;> simp [swInit]

/-- With distinct keys and distinct timeout handles, filtering the Store
by "not this entry's handle" and by "not this entry's key" agree. -/
lemma filter_timeout_eq_filter_key {store : List (String × SWItem)}
    {id : String} {e : SWItem}
    (hkeys : (store.map (fun p => p.1)).Nodup)
    (htids : (store.map (fun p => p.2.timeoutId)).Nodup)
    (hmem : (id, e) ∈ store) :
    store.filter (fun p => ¬ p.2.timeoutId = e.timeoutId) =
      store.filter (fun p => ¬ p.1 = id) := by
  apply List.filter_congr
  intro p hp
  by_cases h1 : p.1 = id
  · have hpe : p = (id, e) := by
      have := List.inj_on_of_nodup_map hkeys hp hmem
      simpa [h1] using this h1
    subst hpe
    simp
  · by_cases h2 : p.2.timeoutId = e.timeoutId
    · exfalso
      have hpe : p = (id, e) := List.inj_on_of_nodup_map htids hp hmem h2
      exact h1 (by simp [hpe])
    · simp [h1, h2]

lemma swInv_cancel {s : SWState} (h : SWInv s) (id : String) :
    SWInv (cancelScheduledNotification s id) := by
  obtain ⟨harm, hkeys, htids, hbound⟩ := h
  unfold cancelScheduledNotification
  cases hf : s.store.find? (fun p => p.1 = id) with
  | none => exact ⟨harm, hkeys, htids, hbound⟩
  | some e =>
    have he1 : e.1 = id := by simpa using List.find?_some hf
    have hmem : (id, e.2) ∈ s.store := by
      have : e ∈ s.store := List.mem_of_find?_eq_some hf
      rwa [show e = (id, e.2) by rw [← he1]] at this
    refine ⟨?_, ?_, ?_, ?_⟩
    · show s.armedTimers.filter _ = _
      rw [harm, List.filter_map]
      rw [show ((fun t : ArmedTimer => decide (¬ t.timeoutId = e.2.timeoutId)) ∘ entryTimer)
            = (fun p : String × SWItem => decide (¬ p.2.timeoutId = e.2.timeoutId)) from rfl]
      rw [filter_timeout_eq_filter_key hkeys htids hmem]
    · exact List.Nodup.sublist
        (List.Sublist.map _ (List.filter_sublist s.store)) hkeys
    · exact List.Nodup.sublist
        (List.Sublist.map _ (List.filter_sublist s.store)) htids
    · intro p hp
      exact hbound p (List.mem_filter.mp hp).1

lemma swInv_schedule {s : SWState} (h : SWInv s) (id title body : String)
    (t now : Int) : SWInv (scheduleNotification s id title body t now) := by
  have hnokey := cancel_no_key s id
  obtain ⟨harm, hkeys, htids, hbound⟩ := swInv_cancel h id
  unfold scheduleNotification
  by_cases hd : t - now ≤ 0
  · simp only [if_pos hd]
    exact ⟨harm, hkeys, htids, hbound⟩
  · simp only [if_neg hd]
    by_cases hcap : 2147483647 < t - now
    · simp only [if_pos hcap]
      exact ⟨harm, hkeys, htids, hbound⟩
    · simp only [if_neg hcap]
      rw [mapSet_of_no_key _ _ _ hnokey]
      set s' := cancelScheduledNotification s id with hs'
      refine ⟨?_, ?_, ?_, ?_⟩
      · show s'.armedTimers ++ [(⟨s'.nextTimerId, id, title, body⟩ : ArmedTimer)]
          = (s'.store ++ [(id, (⟨s'.nextTimerId, title, body, t⟩ : SWItem))]).map entryTimer
        rw [List.map_append, harm]
        rfl
      · show ((s'.store ++ [(id, (⟨s'.nextTimerId, title, body, t⟩ : SWItem))]).map
            (fun p => p.1)).Nodup
        rw [List.map_append, List.nodup_append]
        refine ⟨hkeys, by simp, ?_⟩
        intro a ha hb
        simp only [List.map_cons, List.map_nil, List.mem_singleton] at hb
        have hb2 : a = id := hb
        obtain ⟨p, hp, hpa⟩ := List.mem_map.mp ha
        exact hnokey p hp (by rw [hpa, hb2])
      · show ((s'.store ++ [(id, (⟨s'.nextTimerId, title, body, t⟩ : SWItem))]).map
            (fun p => p.2.timeoutId)).Nodup
        rw [List.map_append, List.nodup_append]
        refine ⟨htids, by simp, ?_⟩
        intro a ha hb
        simp only [List.map_cons, List.map_nil, List.mem_singleton] at hb
        have hb2 : a = s'.nextTimerId := hb
        obtain ⟨p, hp, hpa⟩ := List.mem_map.mp ha
        have h3 := hbound p hp
        omega
      · intro p hp
        rcases List.mem_append.mp hp with hp1 | hp2
        · have := hbound p hp1
          show p.2.timeoutId < s'.nextTimerId + 1
          omega
        · simp only [List.mem_singleton] at hp2
          subst hp2
          exact Nat.lt_succ_self _

lemma swInv_fire {s : SWState} (h : SWInv s) (tid : Nat) :
    SWInv (fireTimer s tid) := by
  obtain ⟨harm, hkeys, htids, hbound⟩ := h
  unfold fireTimer
  cases hf : s.armedTimers.find? (fun t => t.timeoutId = tid) with
  | none => exact ⟨harm, hkeys, htids, hbound⟩
  | some tm =>
    rw [harm, List.find?_map] at hf
    cases hf0 : s.store.find?
        ((fun t : ArmedTimer => decide (t.timeoutId = tid)) ∘ entryTimer) with
    | none =>
      rw [hf0] at hf
      simp at hf
    | some p =>
      rw [hf0] at hf
      have htm : tm = entryTimer p := by simpa using hf.symm
      have hpmem : (p.1, p.2) ∈ s.store := by
        simpa using List.mem_of_find?_eq_some hf0
      have hptid : p.2.timeoutId = tid := by
        simpa [entryTimer] using List.find?_some hf0
      subst htm
      refine ⟨?_, ?_, ?_, ?_⟩
      · show s.armedTimers.filter _
          = (s.store.filter (fun q => ¬ q.1 = (entryTimer p).id)).map entryTimer
        rw [harm, List.filter_map]
        rw [show ((fun u : ArmedTimer => decide (¬ u.timeoutId = tid)) ∘ entryTimer)
              = (fun q : String × SWItem => decide (¬ q.2.timeoutId = tid)) from rfl]
        congr 1
        rw [← hptid]
        exact filter_timeout_eq_filter_key hkeys htids hpmem
      · exact List.Nodup.sublist
          (List.Sublist.map _ (List.filter_sublist s.store)) hkeys
      · exact List.Nodup.sublist
          (List.Sublist.map _ (List.filter_sublist s.store)) htids
      · intro q hq
        exact hbound q (List.mem_filter.mp hq).1

lemma swInv_step {s : SWState} (h : SWInv s) (e : SWEvent) :
    SWInv (swStep s e) := by
  cases e with
  | msg m now =>
    cases m with
    | scheduleMsg id title body t => exact swInv_schedule h id title body t now
    | cancelMsg id => exact swInv_cancel h id
    | skipWaiting => exact h
  | fire tid => exact swInv_fire h tid

lemma swInv_foldl {s : SWState} (h : SWInv s) (es : List SWEvent) :
    SWInv (es.foldl swStep s) := by
  induction es generalizing s with
  | nil => exact h
  | cons e es ih => exact ih (swInv_step h e)

lemma swInv_run (es : List SWEvent) : SWInv (swRun es) :=
  swInv_foldl swInv_init es

/-! ## Further helper lemmas for the claim theorems -/

lemma cancel_found (s : SWState) (id : String) (q : String × SWItem)
    (hf : s.store.find? (fun p => p.1 = id) = some q) :
    cancelScheduledNotification s id =
      { s with
        armedTimers := s.armedTimers.filter (fun u => ¬ u.timeoutId = q.2.timeoutId)
        store := s.store.filter (fun p => ¬ p.1 = id) } := by
  unfold cancelScheduledNotification
  rw [hf]

lemma mapGet_filter_self (l : List (String × SWItem)) (id : String) :
    mapGet (l.filter (fun p => ¬ p.1 = id)) id = none := by
  unfold mapGet
  rw [List.find?_eq_none.mpr]
  · rfl
  · intro p hp
    have h := (List.mem_filter.mp hp).2
    simp only [decide_not, Bool.not_eq_true'] at h
    simp [h]

lemma option_isSome_map {α β : Type} (f : α → β) (o : Option α) :
    (o.map f).isSome = o.isSome := by
  cases o <;> rfl

/-- The arming branch of `scheduleNotification` appends the new record
and the new timer, given that the delay is admissible. -/
lemma schedule_in_range (s : SWState) (id title body : String) (t now : Int)
    (hpos : 0 < t - now) (hcap : t - now ≤ 2147483647) :
    scheduleNotification s id title body t now =
      (let s' := cancelScheduledNotification s id
       { s' with
         armedTimers := s'.armedTimers
           ++ [(⟨s'.nextTimerId, id, title, body⟩ : ArmedTimer)]
         store := s'.store ++ [(id, (⟨s'.nextTimerId, title, body, t⟩ : SWItem))]
         nextTimerId := s'.nextTimerId + 1 }) := by
  have hnokey := cancel_no_key s id
  unfold scheduleNotification
  have h1 : ¬ t - now ≤ 0 := by omega
  have h2 : ¬ 2147483647 < t - now := by omega
  simp only [if_neg h1, if_neg h2]
  rw [mapSet_of_no_key _ _ _ hnokey]

/-! ## String-pipeline lemmas for the 12-hour parser -/

lemma listStartsWith_refl (l : List Char) : listStartsWith l l = true := by
  induction l with
  | nil => rfl
  | cons c t ih => simp [listStartsWith, ih]

lemma listIncludes_suffix (l pat : List Char) :
    listIncludes (l ++ pat) pat = true := by
  induction l with
  | nil =>
    cases pat with
    | nil => rfl
    | cons c t => simp [listIncludes, listStartsWith_refl]
  | cons c t ih => simp [listIncludes, ih]

lemma listIncludes_pm_false (l : List Char) (h : ∀ c ∈ l, ¬ c = 'p') :
    listIncludes l ['p', 'm'] = false := by
  induction l with
  | nil => rfl
  | cons c t ih =>
    have hc : ¬ c = 'p' := h c (by simp)
    have ht := ih (fun x hx => h x (by simp [hx]))
    simp [listIncludes, listStartsWith, hc, ht]

lemma dropWhile_head_nospace (c : Char) (t : List Char) (h : jsIsSpace c = false) :
    (c :: t).dropWhile jsIsSpace = c :: t := by
  simp [List.dropWhile, h]

lemma dropWhile_all_nospace (l : List Char) (h : ∀ c ∈ l, jsIsSpace c = false) :
    l.dropWhile jsIsSpace = l := by
  cases l with
  | nil => rfl
  | cons c t => exact dropWhile_head_nospace c t (h c (by simp))

lemma jsTrim_eq_self (l : List Char) (h : ∀ c ∈ l, jsIsSpace c = false) :
    jsTrim l = l := by
  unfold jsTrim
  rw [dropWhile_all_nospace l h,
    dropWhile_all_nospace l.reverse (fun c hc => h c (List.mem_reverse.mp hc)),
    List.reverse_reverse]

lemma jsTrim_trailing_space (c : Char) (t : List Char)
    (h : ∀ x ∈ c :: t, jsIsSpace x = false) :
    jsTrim ((c :: t) ++ [' ']) = c :: t := by
  unfold jsTrim
  rw [show ((c :: t) ++ [' ']) = c :: (t ++ [' ']) from rfl,
    dropWhile_head_nospace c (t ++ [' ']) (h c (by simp))]
  have h2 : (c :: (t ++ [' '])).reverse = ' ' :: (c :: t).reverse := by simp
  rw [h2]
  have h3 : (' ' :: (c :: t).reverse).dropWhile jsIsSpace
      = ((c :: t).reverse).dropWhile jsIsSpace := by
    have hsp : jsIsSpace ' ' = true := by decide
    simp [List.dropWhile, hsp]
  rw [h3, dropWhile_all_nospace _ (fun x hx => h x (List.mem_reverse.mp hx)),
    List.reverse_reverse]

lemma jsTrim_sandwich (c1 : Char) (mid : List Char) (c2 : Char)
    (h1 : jsIsSpace c1 = false) (h2 : jsIsSpace c2 = false) :
    jsTrim (c1 :: (mid ++ [c2])) = c1 :: (mid ++ [c2]) := by
  unfold jsTrim
  rw [dropWhile_head_nospace c1 (mid ++ [c2]) h1]
  have hrev : (c1 :: (mid ++ [c2])).reverse = c2 :: (mid.reverse ++ [c1]) := by simp
  rw [hrev, dropWhile_head_nospace c2 _ h2, ← hrev, List.reverse_reverse]

lemma removeMeridiem_append (l tl : List Char)
    (h : ∀ c ∈ l, ¬ asciiLower c = 'a' ∧ ¬ asciiLower c = 'p') :
    removeMeridiem (l ++ tl) = l ++ removeMeridiem tl := by
  induction l with
  | nil => rfl
  | cons c1 rest ih =>
    have hc1 := h c1 (by simp)
    have hcond : ∀ c2 : Char,
        ¬ ((asciiLower c1 = 'a' ∨ asciiLower c1 = 'p') ∧ asciiLower c2 = 'm') := by
      rintro c2 ⟨hx, _⟩
      rcases hx with hx | hx
      · exact hc1.1 hx
      · exact hc1.2 hx
    cases rest with
    | nil =>
      cases tl with
      | nil => rfl
      | cons t0 t1 =>
        show removeMeridiem (c1 :: t0 :: t1) = c1 :: removeMeridiem (t0 :: t1)
        simp only [removeMeridiem]
        rw [if_neg (hcond t0)]
    | cons c2 rest2 =>
      have ih2 := ih (fun x hx => h x (by simp [hx]))
      show removeMeridiem (c1 :: c2 :: (rest2 ++ tl))
          = c1 :: c2 :: rest2 ++ removeMeridiem tl
      simp only [removeMeridiem]
      rw [if_neg (hcond c2)]
      rw [show c2 :: (rest2 ++ tl) = (c2 :: rest2) ++ tl from rfl, ih2]
      rfl

lemma removeMeridiem_marker (mc1 mc2 : Char)
    (h1 : asciiLower mc1 = 'a' ∨ asciiLower mc1 = 'p')
    (h2 : asciiLower mc2 = 'm') :
    removeMeridiem [mc1, mc2] = [] := by
  simp only [removeMeridiem]
  rw [if_pos ⟨h1, h2⟩]

lemma splitOnColon_no_colon (l : List Char) (h : ∀ c ∈ l, ¬ c = ':') :
    splitOnColon l = [l] := by
  induction l with
  | nil => rfl
  | cons c t ih =>
    have hc := h c (by simp)
    have ht := ih (fun x hx => h x (by simp [hx]))
    simp only [splitOnColon, ht]
    rw [if_neg hc]

lemma splitOnColon_append (l1 l2 : List Char) (h : ∀ c ∈ l1, ¬ c = ':') :
    splitOnColon (l1 ++ ':' :: l2) = l1 :: splitOnColon l2 := by
  induction l1 with
  | nil =>
    show splitOnColon (':' :: l2) = [] :: splitOnColon l2
    simp [splitOnColon]
  | cons c t ih =>
    have hc := h c (by simp)
    have ht := ih (fun x hx => h x (by simp [hx]))
    show splitOnColon (c :: (t ++ ':' :: l2)) = (c :: t) :: splitOnColon l2
    simp only [splitOnColon, ht]
    rw [if_neg hc]

lemma charOk_spec (c : Char) (h : charOk c = true) :
    jsIsSpace c = false ∧ ¬ asciiLower c = 'a' ∧ ¬ asciiLower c = 'p'
      ∧ ¬ c = ':' := by
  simp only [charOk, Bool.and_eq_true, Bool.not_eq_true', beq_eq_false_iff_ne,
    ne_eq, Bool.not_eq_true] at h
  exact ⟨h.1.1.1, h.1.1.2, h.1.2, h.2⟩

lemma renderNat_all_ok : ∀ n < 13, (renderNat n).all charOk = true := by decide

lemma render2_all_ok : ∀ m < 60, (render2 m).all charOk = true := by decide

lemma jsParseInt_renderNat : ∀ n < 13,
    jsParseInt (renderNat n) = some (Int.ofNat n) := by decide

lemma jsParseInt_render2 : ∀ m < 60,
    jsParseInt (render2 m) = some (Int.ofNat m) := by decide

lemma renderNat_ne_nil (n : Nat) : renderNat n ≠ [] := by
  unfold renderNat
  split <;> simp

lemma render2_ne_nil (n : Nat) : render2 n ≠ [] := by
  simp [render2]

lemma hourMinute12_eval (isPM : Bool) (rh rm : List Char) (hn mn : Nat)
    (hrh : jsParseInt rh = some (Int.ofNat hn))
    (hrm : jsParseInt rm = some (Int.ofNat mn)) (hne : rm ≠ [])
    (hge : 1 ≤ hn) (hle : hn ≤ 12) :
    hourMinute12 isPM [rh, rm]
      = (some (Int.ofNat (expectedHour hn isPM)), some (Int.ofNat mn)) := by
  have hmin : minutesOfParts [rh, rm] = some (Int.ofNat mn) := by
    simp [minutesOfParts, hne, hrm]
  have hhead : ([rh, rm].headD [] : List Char) = rh := rfl
  unfold hourMinute12
  rw [hhead, hmin, hrh]
  by_cases h12 : hn = 12
  · subst h12
    cases isPM <;> simp [expectedHour]
  · have h2 : ¬ ((hn : Int) = 12) := by omega
    cases isPM <;> simp [expectedHour, h12, h2]

lemma hourMinute12_eval_nomin (isPM : Bool) (rh : List Char) (hn : Nat)
    (hrh : jsParseInt rh = some (Int.ofNat hn))
    (hge : 1 ≤ hn) (hle : hn ≤ 12) :
    hourMinute12 isPM [rh]
      = (some (Int.ofNat (expectedHour hn isPM)), some 0) := by
  have hmin : minutesOfParts [rh] = some 0 := by
    simp [minutesOfParts]
  have hhead : ([rh].headD [] : List Char) = rh := rfl
  unfold hourMinute12
  rw [hhead, hmin, hrh]
  by_cases h12 : hn = 12
  · subst h12
    cases isPM <;> simp [expectedHour]
  · have h2 : ¬ ((hn : Int) = 12) := by omega
    cases isPM <;> simp [expectedHour, h12, h2]

lemma toList_mk (l : List Char) : (String.mk l).toList = l := rfl

lemma jsTrim_body_sps (c0 : Char) (bt sps : List Char)
    (hsps : sps = [] ∨ sps = [' '])
    (hns : ∀ c ∈ c0 :: bt, jsIsSpace c = false) :
    jsTrim ((c0 :: bt) ++ sps) = c0 :: bt := by
  rcases hsps with rfl | rfl
  · rw [List.append_nil]
    exact jsTrim_eq_self _ hns
  · exact jsTrim_trailing_space c0 bt hns

/-- The common part of both parsers on a well-shaped 12-hour input:
body ++ optional space ++ two-character meridiem marker.  The trimmed
string survives intact, the marker is scrubbed, the `pm` test sees
exactly the marker's first letter, and the split runs on the body. -/
lemma parse12_stages (c0 : Char) (bt sps : List Char) (mc1 mc2 : Char)
    (hsps : sps = [] ∨ sps = [' '])
    (hclean : ∀ c ∈ c0 :: bt,
      jsIsSpace c = false ∧ ¬ asciiLower c = 'a' ∧ ¬ asciiLower c = 'p')
    (hm1 : asciiLower mc1 = 'a' ∨ asciiLower mc1 = 'p')
    (hm2 : asciiLower mc2 = 'm') (hm2s : jsIsSpace mc2 = false) :
    jsTrim ((c0 :: bt) ++ sps ++ [mc1, mc2]) = (c0 :: bt) ++ sps ++ [mc1, mc2]
    ∧ removeMeridiem ((c0 :: bt) ++ sps ++ [mc1, mc2]) = (c0 :: bt) ++ sps
    ∧ jsTrim ((c0 :: bt) ++ sps) = c0 :: bt
    ∧ listIncludes (List.map asciiLower ((c0 :: bt) ++ sps ++ [mc1, mc2]))
        ['p', 'm'] = (asciiLower mc1 == 'p') := by
  have hspsmem : ∀ c ∈ sps, c = ' ' := by
    rcases hsps with rfl | rfl <;> simp
  refine ⟨?_, ?_, ?_, ?_⟩
  · have hshape : (c0 :: bt) ++ sps ++ [mc1, mc2]
        = c0 :: ((bt ++ sps ++ [mc1]) ++ [mc2]) := by simp
    rw [hshape, jsTrim_sandwich c0 _ mc2 (hclean c0 (by simp)).1 hm2s]
  · have hl : ∀ c ∈ (c0 :: bt) ++ sps,
        ¬ asciiLower c = 'a' ∧ ¬ asciiLower c = 'p' := by
      intro c hc
      rcases List.mem_append.mp hc with h | h
      · exact ⟨(hclean c h).2.1, (hclean c h).2.2⟩
      · rw [hspsmem c h]
        exact ⟨by decide, by decide⟩
    rw [show (c0 :: bt) ++ sps ++ [mc1, mc2] = ((c0 :: bt) ++ sps) ++ [mc1, mc2]
          from by simp,
      removeMeridiem_append _ _ hl, removeMeridiem_marker mc1 mc2 hm1 hm2,
      List.append_nil]
  · exact jsTrim_body_sps c0 bt sps hsps (fun c hc => (hclean c hc).1)
  · rcases hm1 with ha | hp
    · rw [show (asciiLower mc1 == 'p') = false from by rw [ha]; rfl]
      apply listIncludes_pm_false
      intro c hc
      simp only [List.map_append, List.mem_append, List.mem_map] at hc
      rcases hc with (⟨x, hx, rfl⟩ | ⟨x, hx, rfl⟩) | ⟨x, hx, rfl⟩
      · exact (hclean x hx).2.2
      · rw [hspsmem x hx]
        decide
      · simp only [List.mem_cons, List.mem_singleton] at hx
        rcases hx with rfl | rfl | hx
        · rw [ha]
          decide
        · rw [hm2]
          decide
        · exact absurd hx (List.not_mem_nil x)
    · rw [show (asciiLower mc1 == 'p') = true from by rw [hp]; rfl]
      have hmap : List.map asciiLower ((c0 :: bt) ++ sps ++ [mc1, mc2])
          = (List.map asciiLower ((c0 :: bt) ++ sps)) ++ ['p', 'm'] := by
        simp [hp, hm2]
      rw [hmap]
      exact listIncludes_suffix _ _

/-- Pipeline lemma for the part_000 parser on a uniform-case marker. -/
lemma parseHM_v0_pipeline (c0 : Char) (bt sps : List Char) (mc1 mc2 : Char)
    (hsps : sps = [] ∨ sps = [' '])
    (hclean : ∀ c ∈ c0 :: bt,
      jsIsSpace c = false ∧ ¬ asciiLower c = 'a' ∧ ¬ asciiLower c = 'p')
    (huni : (mc1 = 'A' ∧ mc2 = 'M') ∨ (mc1 = 'a' ∧ mc2 = 'm')
      ∨ (mc1 = 'P' ∧ mc2 = 'M') ∨ (mc1 = 'p' ∧ mc2 = 'm')) :
    parseHM_v0 (String.mk ((c0 :: bt) ++ sps ++ [mc1, mc2]))
      = hourMinute12 (asciiLower mc1 == 'p') (splitOnColon (c0 :: bt)) := by
  have hm : (asciiLower mc1 = 'a' ∨ asciiLower mc1 = 'p') ∧ asciiLower mc2 = 'm'
      ∧ jsIsSpace mc2 = false := by
    rcases huni with ⟨rfl, rfl⟩ | ⟨rfl, rfl⟩ | ⟨rfl, rfl⟩ | ⟨rfl, rfl⟩ <;> decide
  obtain ⟨htrim, hrem, htrim2, hpm⟩ :=
    parse12_stages c0 bt sps mc1 mc2 hsps hclean hm.1 hm.2.1 hm.2.2
  have hdet : (listIncludes ((c0 :: bt) ++ sps ++ [mc1, mc2]) ['A', 'M']
      || listIncludes ((c0 :: bt) ++ sps ++ [mc1, mc2]) ['P', 'M']
      || listIncludes ((c0 :: bt) ++ sps ++ [mc1, mc2]) ['a', 'm']
      || listIncludes ((c0 :: bt) ++ sps ++ [mc1, mc2]) ['p', 'm']) = true := by
    rcases huni with ⟨rfl, rfl⟩ | ⟨rfl, rfl⟩ | ⟨rfl, rfl⟩ | ⟨rfl, rfl⟩
    · rw [listIncludes_suffix ((c0 :: bt) ++ sps) (['A', 'M'])]
      simp
    · rw [listIncludes_suffix ((c0 :: bt) ++ sps) (['a', 'm'])]
      simp
    · rw [listIncludes_suffix ((c0 :: bt) ++ sps) (['P', 'M'])]
      simp
    · rw [listIncludes_suffix ((c0 :: bt) ++ sps) (['p', 'm'])]
      simp
  unfold parseHM_v0
  rw [toList_mk, htrim, if_pos hdet, hpm, hrem, htrim2]

/-- Pipeline lemma for the part_001 parser on a marker of any case. -/
lemma parseHM_v1_pipeline (c0 : Char) (bt sps : List Char) (mc1 mc2 : Char)
    (hsps : sps = [] ∨ sps = [' '])
    (hclean : ∀ c ∈ c0 :: bt,
      jsIsSpace c = false ∧ ¬ asciiLower c = 'a' ∧ ¬ asciiLower c = 'p')
    (hm1 : asciiLower mc1 = 'a' ∨ asciiLower mc1 = 'p')
    (hm2 : asciiLower mc2 = 'm') (hm2s : jsIsSpace mc2 = false) :
    parseHM_v1 (String.mk ((c0 :: bt) ++ sps ++ [mc1, mc2]))
      = hourMinute12 (asciiLower mc1 == 'p') (splitOnColon (c0 :: bt)) := by
  obtain ⟨htrim, hrem, htrim2, hpm⟩ :=
    parse12_stages c0 bt sps mc1 mc2 hsps hclean hm1 hm2 hm2s
  have hdet : (listIncludes
        (List.map asciiLower ((c0 :: bt) ++ sps ++ [mc1, mc2])) ['a', 'm']
      || listIncludes
        (List.map asciiLower ((c0 :: bt) ++ sps ++ [mc1, mc2])) ['p', 'm'])
      = true := by
    have hmap : List.map asciiLower ((c0 :: bt) ++ sps ++ [mc1, mc2])
        = (List.map asciiLower ((c0 :: bt) ++ sps))
            ++ [asciiLower mc1, asciiLower mc2] := by
      simp
    rcases hm1 with ha | hp
    · rw [hmap, ha, hm2,
        listIncludes_suffix (List.map asciiLower ((c0 :: bt) ++ sps)) (['a', 'm'])]
      simp
    · rw [hmap, hp, hm2,
        listIncludes_suffix (List.map asciiLower ((c0 :: bt) ++ sps)) (['p', 'm'])]
      simp
  unfold parseHM_v1
  rw [toList_mk, htrim, if_pos hdet, hpm, hrem, htrim2]

lemma renderNat_clean (n : Nat) (hn : n < 13) : ∀ c ∈ renderNat n,
    jsIsSpace c = false ∧ ¬ asciiLower c = 'a' ∧ ¬ asciiLower c = 'p'
      ∧ ¬ c = ':' :=
  fun c hc => charOk_spec c ((List.all_eq_true.mp (renderNat_all_ok n hn)) c hc)

lemma render2_clean (m : Nat) (hm : m < 60) : ∀ c ∈ render2 m,
    jsIsSpace c = false ∧ ¬ asciiLower c = 'a' ∧ ¬ asciiLower c = 'p'
      ∧ ¬ c = ':' :=
  fun c hc => charOk_spec c ((List.all_eq_true.mp (render2_all_ok m hm)) c hc)

lemma bodyClean_withMin (n m' : Nat) (hn : n < 13) (hm : m' < 60) :
    ∀ c ∈ renderNat n ++ ':' :: render2 m',
      jsIsSpace c = false ∧ ¬ asciiLower c = 'a' ∧ ¬ asciiLower c = 'p' := by
  intro c hc
  rcases List.mem_append.mp hc with h1 | h2
  · obtain ⟨a1, a2, a3, _⟩ := renderNat_clean n hn c h1
    exact ⟨a1, a2, a3⟩
  · rcases List.mem_cons.mp h2 with rfl | h3
    · exact ⟨by decide, by decide, by decide⟩
    · obtain ⟨a1, a2, a3, _⟩ := render2_clean m' hm c h3
      exact ⟨a1, a2, a3⟩

/-! ## Claim theorems -/

/-- **C1 (counterexample).** The claim asserts that an over-capacity
schedule request is "surfaced to the caller as a rejected (failed)
schedule request".  At the concrete input below (delay
2147483648 ms > 2147483647 ms, worker started fresh, manager ready and
permission granted) the caller-side `scheduleNotification` returns
`true` — success, not failure — because messaging is fire-and-forget,
while the worker silently drops the request (its state is unchanged:
nothing armed, nothing stored, nothing shown). -/
theorem overcap_not_surfaced_to_caller :
    (mgrScheduleNotification ⟨true, true, true, true⟩ .granted
        "x" "T" "B" 2147483648).1 = true
    ∧ swRun [SWEvent.msg (.scheduleMsg "x" "T" "B" 2147483648) 0] = swInit := by
  constructor
  · rfl
  · decide

/-- **C1 (amended).** When the computed delay exceeds 2147483647 ms the
worker's `scheduleNotification` reduces to its opening cancel: no
trigger is armed, no Store entry is inserted, nothing fires early and
the fresh-handle counter is untouched; but the rejection is *not*
surfaced — the foreground manager still reports success for the posted
request. -/
theorem overcap_drops_without_arming (s : SWState) (ms : MgrState)
    (id title body : String) (t now : Int)
    (hcap : 2147483647 < t - now)
    (hreg : ms.hasRegistration = true) (hsw : ms.swAvailable = true) :
    scheduleNotification s id title body t now = cancelScheduledNotification s id
    ∧ mgrScheduleNotification ms .granted id title body t
        = (true, [.postMessage (.scheduleMsg id title body t)]) := by
  refine ⟨schedule_overcap_eq_cancel s id title body t now hcap, ?_⟩
  unfold mgrScheduleNotification
  simp [hreg, hsw]

/-- Witness for `overcap_drops_without_arming`. -/
theorem overcap_drops_without_arming_witness :
    scheduleNotification swInit "x" "T" "B" 2200000000 0
        = cancelScheduledNotification swInit "x"
    ∧ mgrScheduleNotification ⟨true, true, true, true⟩ .granted
          "x" "T" "B" 2200000000
        = (true, [.postMessage (.scheduleMsg "x" "T" "B" 2200000000)]) :=
  overcap_drops_without_arming swInit ⟨true, true, true, true⟩
    "x" "T" "B" 2200000000 0 (by decide) rfl rfl

/-- **C2.** After any finite sequence of schedule, cancel and fire
events processed from worker start, an id has a Store entry iff an
armed trigger for that id exists, and the Store's size equals the
number of armed triggers. -/
theorem store_matches_armed_triggers (es : List SWEvent) :
    (∀ id : String, (mapGet (swRun es).store id).isSome = true ↔
        ∃ tm ∈ (swRun es).armedTimers, tm.id = id)
    ∧ (swRun es).store.length = (swRun es).armedTimers.length := by
  obtain ⟨harm, hkeys, htids, hbound⟩ := swInv_run es
  constructor
  · intro id
    rw [harm]
    unfold mapGet
    rw [option_isSome_map]
    constructor
    · intro h
      obtain ⟨p, hp, hpid⟩ := List.find?_isSome.mp h
      exact ⟨entryTimer p, List.mem_map_of_mem _ hp, by simpa using hpid⟩
    · rintro ⟨tmr, htm, htmid⟩
      obtain ⟨p, hp, rfl⟩ := List.mem_map.mp htm
      exact List.find?_isSome.mpr ⟨p, hp, by simpa using htmid⟩
  · rw [harm, List.length_map]

/-- **C3 (counterexample).** Two schedule calls with the same id need
not leave one live entry: here the first call arms a 5 ms-away
reminder, and the second call (same id, but its time already past at
processing) cancels the first entry and fires immediately without
inserting, leaving *no* entry for the id — refuting "performing both
calls leaves exactly one live Store entry for the id". -/
theorem double_schedule_can_leave_no_entry :
    (swRun [SWEvent.msg (.scheduleMsg "x" "a" "b" 5) 0,
            SWEvent.msg (.scheduleMsg "x" "c" "d" 3) 10]).store = []
    ∧ (swRun [SWEvent.msg (.scheduleMsg "x" "a" "b" 5) 0,
              SWEvent.msg (.scheduleMsg "x" "c" "d" 3) 10]).armedTimers = [] := by
  decide

/-- **C3 (amended).** If the *second* call's delay is admissible
(`0 < scheduledAt − now ≤ 2147483647`), then after any first schedule
call with the same id the Store holds exactly one entry for the id and
it carries the second call's title, body and time: the second call's
opening cancel removes whatever the first call left (replace, not
append).  The first call's parameters and even the starting state are
arbitrary. -/
theorem reschedule_replaces_entry (s0 : SWState) (id : String)
    (title1 body1 : String) (t1 now1 : Int)
    (title2 body2 : String) (t2 now2 : Int) (s2 : SWState)
    (hs2 : s2 = scheduleNotification
        (scheduleNotification s0 id title1 body1 t1 now1) id title2 body2 t2 now2)
    (hpos : 0 < t2 - now2) (hcap : t2 - now2 ≤ 2147483647) :
    s2.store.countP (fun p => p.1 = id) = 1
    ∧ (mapGet s2.store id).map (fun e => (e.title, e.body, e.scheduledTime))
        = some (title2, body2, t2) := by
  subst hs2
  set s1 := scheduleNotification s0 id title1 body1 t1 now1 with hs1
  have hnokey := cancel_no_key s1 id
  rw [schedule_in_range s1 id title2 body2 t2 now2 hpos hcap]
  set s' := cancelScheduledNotification s1 id with hs'
  constructor
  · show ((s'.store ++ [(id, (⟨s'.nextTimerId, title2, body2, t2⟩ : SWItem))]).countP
        (fun p : String × SWItem => p.1 = id)) = 1
    rw [List.countP_append]
    have h0 : s'.store.countP (fun p => p.1 = id) = 0 := by
      rw [List.countP_eq_zero]
      intro p hp
      simpa using hnokey p hp
    rw [h0]
    simp
  · show (mapGet (s'.store ++ [(id, (⟨s'.nextTimerId, title2, body2, t2⟩ : SWItem))]) id).map
        (fun e => (e.title, e.body, e.scheduledTime)) = some (title2, body2, t2)
    unfold mapGet
    rw [List.find?_append]
    rw [List.find?_eq_none.mpr (fun p hp => by simpa using hnokey p hp)]
    simp

/-- Witness for `reschedule_replaces_entry`. -/
theorem reschedule_replaces_entry_witness :
    (scheduleNotification (scheduleNotification swInit "x" "a" "b" 5 0)
        "x" "c" "d" 7 0).store.countP (fun p => p.1 = "x") = 1
    ∧ (mapGet (scheduleNotification (scheduleNotification swInit "x" "a" "b" 5 0)
          "x" "c" "d" 7 0).store "x").map
        (fun e => (e.title, e.body, e.scheduledTime)) = some ("c", "d", 7) :=
  reschedule_replaces_entry swInit "x" "a" "b" 5 0 "c" "d" 7 0 _ rfl
    (by decide) (by decide)

/-- **C5.** For every input string and every instant `now`, both shipped
`parseTimeToDate` variants return a timestamp strictly later than
`now` — via the next-day roll-forward when the time of day has passed,
and via the now+1-minute fallback on validation failure. -/
theorem parse_result_strictly_future (s : String) (now : Int) :
    now < (parseTimeToDate_v0 s now).1 ∧ now < (parseTimeToDate_v1 s now).1 := by
  have hlow : now - now.emod msPerDay ≤ now := dayFloor_le now
  have hhigh : now < now - now.emod msPerDay + msPerDay := lt_dayFloor_add now
  constructor
  · unfold parseTimeToDate_v0
    rcases parseHM_v0 s with ⟨oh, om⟩
    rcases oh with _ | h
    · simp only [addMinutes]
      omega
    · rcases om with _ | m
      · simp only [addMinutes]
        omega
      · dsimp only
        split_ifs with hval hroll
        · simp only [addMinutes]
          omega
        · simp only [addDays, setHours, dayFloor, msPerDay] at hroll ⊢
          simp only [dayFloor, msPerDay] at hlow hhigh
          omega
        · simp only [setHours, dayFloor, msPerDay] at hroll ⊢
          omega
  · unfold parseTimeToDate_v1
    rcases parseHM_v1 s with ⟨oh, om⟩
    rcases oh with _ | h
    · simp only [addMinutes]
      omega
    · rcases om with _ | m
      · simp only [addMinutes]
        omega
      · dsimp only
        split_ifs with hval hroll
        · simp only [addMinutes]
          omega
        · simp only [addDays, setHours, dayFloor, msPerDay] at hroll ⊢
          simp only [dayFloor, msPerDay] at hlow hhigh
          omega
        · simp only [setHours, dayFloor, msPerDay] at hroll ⊢
          omega

/-- **C6 (counterexample).** The claim says every validation failure
is reported as a warning, and its sources cite both parser variants.
The part_001 variant (lines 177–181) returns the fallback for the
spec's Scenario D input `"25:99"` with an empty console log: no report
of any kind is emitted, refuting the reporting conjunct for that cited
variant (only the part_000 variant logs a diagnostic). -/
theorem invalid_time_silent_in_v1 :
    timeInvalid (parseHM_v1 "25:99") = true
    ∧ parseTimeToDate_v1 "25:99" 0 = (addMinutes 0 1, []) := by
  decide

/-- **C6 (amended).** Every input that fails time validation (hour
outside `[0,23]` after normalisation, minute outside `[0,59]`, or an
unparsable token) makes both shipped parsers return the fallback
`now + 1 minute` — the embedded functions are total, so no exception
reaches the caller — and the fallback is strictly in the future.  The
part_000 variant reports the condition with a non-fatal console
diagnostic; the part_001 variant emits no report at all. -/
theorem invalid_time_falls_back (s : String) (now : Int) :
    (timeInvalid (parseHM_v0 s) = true →
      parseTimeToDate_v0 s now
        = (addMinutes now 1, [JsLog.consoleError "Invalid time format:"]))
    ∧ (timeInvalid (parseHM_v1 s) = true →
      parseTimeToDate_v1 s now = (addMinutes now 1, []))
    ∧ now < addMinutes now 1 := by
  refine ⟨?_, ?_, ?_⟩
  · intro h
    unfold parseTimeToDate_v0
    unfold timeInvalid at h
    rcases hp : parseHM_v0 s with ⟨oh, om⟩
    rw [hp] at h
    rcases oh with _ | hh
    · rfl
    · rcases om with _ | mm
      · rfl
      · simp only [decide_eq_true_eq] at h
        dsimp only
        rw [if_pos h]
  · intro h
    unfold parseTimeToDate_v1
    unfold timeInvalid at h
    rcases hp : parseHM_v1 s with ⟨oh, om⟩
    rw [hp] at h
    rcases oh with _ | hh
    · rfl
    · rcases om with _ | mm
      · rfl
      · simp only [decide_eq_true_eq] at h
        dsimp only
        rw [if_pos h]
  · simp only [addMinutes]
    omega

/-- Witness for `invalid_time_falls_back` at the spec's Scenario D
input `"25:99"` (invalid for both variants). -/
theorem invalid_time_falls_back_witness :
    parseTimeToDate_v0 "25:99" 0
      = (addMinutes 0 1, [JsLog.consoleError "Invalid time format:"])
    ∧ parseTimeToDate_v1 "25:99" 0 = (addMinutes 0 1, []) :=
  ⟨(invalid_time_falls_back "25:99" 0).1 (by decide),
   (invalid_time_falls_back "25:99" 0).2.1 (by decide)⟩

/-- **C7.** `requestPermission()` on a supported manager that is (or
successfully becomes) initialised, while the platform permission is
already `denied`, returns failure with exactly the step-by-step
remediation alert and never issues a permission prompt. -/
theorem denied_permission_short_circuits (s : MgrState) (initOk : Bool)
    (prompt : PromptOutcome) (hsup : s.isSupported = true)
    (hini : s.inited = true ∨ initOk = true) :
    requestPermission s .denied initOk prompt
      = (false, [.alertMsg notificationsBlockedAlert])
    ∧ MgrEffect.promptIssued ∉ (requestPermission s .denied initOk prompt).2 := by
  have hmain : requestPermission s .denied initOk prompt
      = (false, [.alertMsg notificationsBlockedAlert]) := by
    unfold requestPermission
    have h1 : ¬ ¬ s.isSupported = true := by simp [hsup]
    rw [if_neg h1]
    have h2 : ¬ (¬ s.inited = true ∧ ¬ initOk = true) := by
      rcases hini with h | h <;> simp [h]
    rw [if_neg h2]
    have h3 : ¬ (NotifPermission.denied = NotifPermission.granted) := by decide
    rw [if_neg h3, if_pos rfl]
  refine ⟨hmain, ?_⟩
  rw [hmain]
  simp

/-- Witness for `denied_permission_short_circuits`. -/
theorem denied_permission_short_circuits_witness :
    requestPermission ⟨true, true, true, true⟩ .denied false .dismissed
      = (false, [.alertMsg notificationsBlockedAlert])
    ∧ MgrEffect.promptIssued ∉
        (requestPermission ⟨true, true, true, true⟩ .denied false .dismissed).2 :=
  denied_permission_short_circuits ⟨true, true, true, true⟩ false .dismissed
    rfl (Or.inl rfl)

/-- **C8.** An over-capacity schedule request is not atomic with
respect to the Store: when an entry for the id is live, the request
first disarms that entry's trigger and removes it, then rejects without
arming or showing anything — the previously armed reminder is lost. -/
theorem overcap_loses_existing_entry (s : SWState) (id : String) (e : SWItem)
    (hget : mapGet s.store id = some e) (title body : String) (t now : Int)
    (hcap : 2147483647 < t - now) :
    mapGet (scheduleNotification s id title body t now).store id = none
    ∧ (scheduleNotification s id title body t now).store
        = s.store.filter (fun p => ¬ p.1 = id)
    ∧ (scheduleNotification s id title body t now).armedTimers
        = s.armedTimers.filter (fun u => ¬ u.timeoutId = e.timeoutId)
    ∧ (scheduleNotification s id title body t now).shown = s.shown := by
  rw [schedule_overcap_eq_cancel s id title body t now hcap]
  unfold mapGet at hget
  cases hf : s.store.find? (fun p => p.1 = id) with
  | none =>
    rw [hf] at hget
    simp at hget
  | some q =>
    rw [hf] at hget
    have hq : q.2 = e := by simpa using hget
    rw [cancel_found s id q hf]
    exact ⟨mapGet_filter_self s.store id, rfl, by rw [hq], rfl⟩

/-- Witness for `overcap_loses_existing_entry`: a live 5 ms-away
reminder for `"x"` is removed by a rejected far-future request. -/
theorem overcap_loses_existing_entry_witness :
    mapGet (scheduleNotification
        ⟨[("x", ⟨0, "a", "b", 5⟩)], [⟨0, "x", "a", "b"⟩], 1, []⟩
        "x" "c" "d" 3000000000 0).store "x" = none
    ∧ (scheduleNotification
        ⟨[("x", ⟨0, "a", "b", 5⟩)], [⟨0, "x", "a", "b"⟩], 1, []⟩
        "x" "c" "d" 3000000000 0).store
        = List.filter (fun p => ¬ p.1 = "x") [("x", ⟨0, "a", "b", 5⟩)]
    ∧ (scheduleNotification
        ⟨[("x", ⟨0, "a", "b", 5⟩)], [⟨0, "x", "a", "b"⟩], 1, []⟩
        "x" "c" "d" 3000000000 0).armedTimers
        = List.filter (fun u => ¬ u.timeoutId = SWItem.timeoutId ⟨0, "a", "b", 5⟩)
            [⟨0, "x", "a", "b"⟩]
    ∧ (scheduleNotification
        ⟨[("x", ⟨0, "a", "b", 5⟩)], [⟨0, "x", "a", "b"⟩], 1, []⟩
        "x" "c" "d" 3000000000 0).shown = [] :=
  overcap_loses_existing_entry
    ⟨[("x", ⟨0, "a", "b", 5⟩)], [⟨0, "x", "a", "b"⟩], 1, []⟩
    "x" ⟨0, "a", "b", 5⟩ (by decide) "c" "d" 3000000000 0 (by decide)

/-- **C9.** Validation is lenient, not shape-checking: `"7x:30"` is not
of the form `H` or `H:MM`, yet both parser variants extract the leading
digits of each token (7 hours, 30 minutes), validation passes, and the
returned value is the normal 07:30 timestamp (27 000 000 ms into the
day), not the fallback — no fallback console report is emitted. -/
theorem lenient_tokens_parse_normally :
    parseHM_v0 "7x:30" = (some 7, some 30)
    ∧ timeInvalid (parseHM_v0 "7x:30") = false
    ∧ parseTimeToDate_v0 "7x:30" 0 = (27000000, [])
    ∧ parseHM_v1 "7x:30" = (some 7, some 30) := by
  decide

/-- **C10.** When a fired item's id is the empty string (the only falsy
string), the rendered alert's tag is the default `"activity-reminder"`;
for every non-empty id the tag is the id itself. -/
theorem fired_alert_tag_defaults (s : SWState) (tid : Nat) (tm : ArmedTimer)
    (hf : s.armedTimers.find? (fun u => u.timeoutId = tid) = some tm) :
    (fireTimer s tid).shown = s.shown ++ [showNotification tm.title tm.body tm.id]
    ∧ (tm.id = "" →
        (showNotification tm.title tm.body tm.id).tag = "activity-reminder")
    ∧ (¬ tm.id = "" → (showNotification tm.title tm.body tm.id).tag = tm.id) := by
  refine ⟨?_, ?_, ?_⟩
  · unfold fireTimer
    rw [hf]
  · intro h0
    unfold showNotification
    simp [h0]
  · intro h0
    unfold showNotification
    simp [h0]

/-- Witness for `fired_alert_tag_defaults` at an empty-string id. -/
theorem fired_alert_tag_defaults_witness :
    (fireTimer ⟨[("", ⟨0, "T", "B", 5⟩)], [⟨0, "", "T", "B"⟩], 1, []⟩ 0).shown
      = [] ++ [showNotification "T" "B" ""]
    ∧ ((("" : String) = "") →
        (showNotification "T" "B" "").tag = "activity-reminder")
    ∧ (¬ ("" : String) = "" → (showNotification "T" "B" "").tag = "") :=
  fired_alert_tag_defaults
    ⟨[("", ⟨0, "T", "B", 5⟩)], [⟨0, "", "T", "B"⟩], 1, []⟩ 0
    ⟨0, "", "T", "B"⟩ (by decide)

/-- **C4 (counterexample).** `"12:30 aM"` is a valid 12-hour input with
a case-insensitive meridiem marker; the claim prescribes normalized
hour 0 (AM with h = 12).  The part_000 parser checks for the exact
substrings `AM`/`PM`/`am`/`pm`, misses the mixed-case marker, treats
the string as 24-hour and returns hour 12. -/
theorem mixed_case_marker_not_normalized :
    parseHM_v0 "12:30 aM" = (some 12, some 30)
    ∧ ¬ (parseHM_v0 "12:30 aM").1 = some 0 := by
  decide

set_option maxRecDepth 4000 in
/-- **C4 (amended).** For every valid 12-hour input `h:mm` (or bare
`h`, minutes defaulting to 0) with an optional space before the
marker: the part_000 parser normalizes the hour per the claim's table
whenever the marker is in uniform case (`AM`, `PM`, `am`, `pm`), and
the part_001 parser does so for markers of arbitrary case; in both,
minutes pass through unchanged.  Finally, every validated result has
its seconds and sub-second fields forced to zero: the returned instant
is exactly `setHours now h m 0 0`, possibly advanced by one day. -/
theorem twelve_hour_normalization :
    (∀ h < 12, ∀ m < 60, ∀ pm lo sp : Bool,
        parseHM_v0 (mkInput12 (h + 1) m pm lo lo sp true)
          = (some (Int.ofNat (expectedHour (h + 1) pm)), some (Int.ofNat m)))
    ∧ (∀ h < 12, ∀ pm lo sp : Bool,
        parseHM_v0 (mkInput12 (h + 1) 0 pm lo lo sp false)
          = (some (Int.ofNat (expectedHour (h + 1) pm)), some 0))
    ∧ (∀ h < 12, ∀ m < 60, ∀ pm lo1 lo2 sp : Bool,
        parseHM_v1 (mkInput12 (h + 1) m pm lo1 lo2 sp true)
          = (some (Int.ofNat (expectedHour (h + 1) pm)), some (Int.ofNat m)))
    ∧ (∀ h < 12, ∀ pm lo1 lo2 sp : Bool,
        parseHM_v1 (mkInput12 (h + 1) 0 pm lo1 lo2 sp false)
          = (some (Int.ofNat (expectedHour (h + 1) pm)), some 0))
    ∧ (∀ (s : String) (now hh mm : Int),
        parseHM_v0 s = (some hh, some mm) →
        ¬ (hh < 0 ∨ 23 < hh ∨ mm < 0 ∨ 59 < mm) →
        (parseTimeToDate_v0 s now).1 = setHours now hh mm 0 0
        ∨ (parseTimeToDate_v0 s now).1 = addDays (setHours now hh mm 0 0) 1) := by
  refine ⟨?_, ?_, ?_, ?_, ?_⟩
  · intro h hh m hm pm lo sp
    cases hrn : renderNat (h + 1) with
    | nil => exact absurd hrn (renderNat_ne_nil (h + 1))
    | cons c0 rt =>
      have hbody : ∀ c ∈ c0 :: (rt ++ ':' :: render2 m),
          jsIsSpace c = false ∧ ¬ asciiLower c = 'a' ∧ ¬ asciiLower c = 'p' :=
        fun c hc => bodyClean_withMin (h + 1) m (by omega) hm c (by rw [hrn]; exact hc)
      have hmk : mkInput12 (h + 1) m pm lo lo sp true
          = String.mk ((c0 :: (rt ++ ':' :: render2 m))
              ++ (if sp then [' '] else [])
              ++ [meridiemChar1 pm lo, meridiemChar2 lo]) := by
        unfold mkInput12
        rw [hrn]
        rfl
      rw [hmk, parseHM_v0_pipeline c0 (rt ++ ':' :: render2 m) _ _ _
        (by cases sp <;> simp) hbody (by cases pm <;> cases lo <;> decide)]
      have hpmv : (asciiLower (meridiemChar1 pm lo) == 'p') = pm := by
        cases pm <;> cases lo <;> decide
      have hnc1 : ∀ c ∈ c0 :: rt, ¬ c = ':' := fun c hc =>
        (renderNat_clean (h + 1) (by omega) c (by rw [hrn]; exact hc)).2.2.2
      have hnc2 : ∀ c ∈ render2 m, ¬ c = ':' := fun c hc =>
        (render2_clean m hm c hc).2.2.2
      have hsplit : splitOnColon (c0 :: (rt ++ ':' :: render2 m))
          = [c0 :: rt, render2 m] := by
        rw [show c0 :: (rt ++ ':' :: render2 m)
              = (c0 :: rt) ++ ':' :: render2 m from rfl,
          splitOnColon_append (c0 :: rt) (render2 m) hnc1,
          splitOnColon_no_colon (render2 m) hnc2]
      have hph : jsParseInt (c0 :: rt) = some (Int.ofNat (h + 1)) := by
        rw [← hrn]
        exact jsParseInt_renderNat (h + 1) (by omega)
      rw [hpmv, hsplit]
      exact hourMinute12_eval pm _ _ (h + 1) m hph (jsParseInt_render2 m hm)
        (render2_ne_nil m) (by omega) (by omega)
  · intro h hh pm lo sp
    cases hrn : renderNat (h + 1) with
    | nil => exact absurd hrn (renderNat_ne_nil (h + 1))
    | cons c0 rt =>
      have hbody : ∀ c ∈ c0 :: rt,
          jsIsSpace c = false ∧ ¬ asciiLower c = 'a' ∧ ¬ asciiLower c = 'p' := by
        intro c hc
        obtain ⟨a1, a2, a3, _⟩ :=
          renderNat_clean (h + 1) (by omega) c (by rw [hrn]; exact hc)
        exact ⟨a1, a2, a3⟩
      have hmk : mkInput12 (h + 1) 0 pm lo lo sp false
          = String.mk ((c0 :: rt) ++ (if sp then [' '] else [])
              ++ [meridiemChar1 pm lo, meridiemChar2 lo]) := by
        unfold mkInput12
        rw [hrn]
        simp
      rw [hmk, parseHM_v0_pipeline c0 rt _ _ _
        (by cases sp <;> simp) hbody (by cases pm <;> cases lo <;> decide)]
      have hpmv : (asciiLower (meridiemChar1 pm lo) == 'p') = pm := by
        cases pm <;> cases lo <;> decide
      have hnc1 : ∀ c ∈ c0 :: rt, ¬ c = ':' := fun c hc =>
        (renderNat_clean (h + 1) (by omega) c (by rw [hrn]; exact hc)).2.2.2
      have hph : jsParseInt (c0 :: rt) = some (Int.ofNat (h + 1)) := by
        rw [← hrn]
        exact jsParseInt_renderNat (h + 1) (by omega)
      rw [hpmv, splitOnColon_no_colon (c0 :: rt) hnc1]
      exact hourMinute12_eval_nomin pm _ (h + 1) hph (by omega) (by omega)
  · intro h hh m hm pm lo1 lo2 sp
    cases hrn : renderNat (h + 1) with
    | nil => exact absurd hrn (renderNat_ne_nil (h + 1))
    | cons c0 rt =>
      have hbody : ∀ c ∈ c0 :: (rt ++ ':' :: render2 m),
          jsIsSpace c = false ∧ ¬ asciiLower c = 'a' ∧ ¬ asciiLower c = 'p' :=
        fun c hc => bodyClean_withMin (h + 1) m (by omega) hm c (by rw [hrn]; exact hc)
      have hmk : mkInput12 (h + 1) m pm lo1 lo2 sp true
          = String.mk ((c0 :: (rt ++ ':' :: render2 m))
              ++ (if sp then [' '] else [])
              ++ [meridiemChar1 pm lo1, meridiemChar2 lo2]) := by
        unfold mkInput12
        rw [hrn]
        rfl
      rw [hmk, parseHM_v1_pipeline c0 (rt ++ ':' :: render2 m) _ _ _
        (by cases sp <;> simp) hbody
        (by cases pm <;> cases lo1 <;> decide)
        (by cases lo2 <;> decide) (by cases lo2 <;> decide)]
      have hpmv : (asciiLower (meridiemChar1 pm lo1) == 'p') = pm := by
        cases pm <;> cases lo1 <;> decide
      have hnc1 : ∀ c ∈ c0 :: rt, ¬ c = ':' := fun c hc =>
        (renderNat_clean (h + 1) (by omega) c (by rw [hrn]; exact hc)).2.2.2
      have hnc2 : ∀ c ∈ render2 m, ¬ c = ':' := fun c hc =>
        (render2_clean m hm c hc).2.2.2
      have hsplit : splitOnColon (c0 :: (rt ++ ':' :: render2 m))
          = [c0 :: rt, render2 m] := by
        rw [show c0 :: (rt ++ ':' :: render2 m)
              = (c0 :: rt) ++ ':' :: render2 m from rfl,
          splitOnColon_append (c0 :: rt) (render2 m) hnc1,
          splitOnColon_no_colon (render2 m) hnc2]
      have hph : jsParseInt (c0 :: rt) = some (Int.ofNat (h + 1)) := by
        rw [← hrn]
        exact jsParseInt_renderNat (h + 1) (by omega)
      rw [hpmv, hsplit]
      exact hourMinute12_eval pm _ _ (h + 1) m hph (jsParseInt_render2 m hm)
        (render2_ne_nil m) (by omega) (by omega)
  · intro h hh pm lo1 lo2 sp
    cases hrn : renderNat (h + 1) with
    | nil => exact absurd hrn (renderNat_ne_nil (h + 1))
    | cons c0 rt =>
      have hbody : ∀ c ∈ c0 :: rt,
          jsIsSpace c = false ∧ ¬ asciiLower c = 'a' ∧ ¬ asciiLower c = 'p' := by
        intro c hc
        obtain ⟨a1, a2, a3, _⟩ :=
          renderNat_clean (h + 1) (by omega) c (by rw [hrn]; exact hc)
        exact ⟨a1, a2, a3⟩
      have hmk : mkInput12 (h + 1) 0 pm lo1 lo2 sp false
          = String.mk ((c0 :: rt) ++ (if sp then [' '] else [])
              ++ [meridiemChar1 pm lo1, meridiemChar2 lo2]) := by
        unfold mkInput12
        rw [hrn]
        simp
      rw [hmk, parseHM_v1_pipeline c0 rt _ _ _
        (by cases sp <;> simp) hbody
        (by cases pm <;> cases lo1 <;> decide)
        (by cases lo2 <;> decide) (by cases lo2 <;> decide)]
      have hpmv : (asciiLower (meridiemChar1 pm lo1) == 'p') = pm := by
        cases pm <;> cases lo1 <;> decide
      have hnc1 : ∀ c ∈ c0 :: rt, ¬ c = ':' := fun c hc =>
        (renderNat_clean (h + 1) (by omega) c (by rw [hrn]; exact hc)).2.2.2
      have hph : jsParseInt (c0 :: rt) = some (Int.ofNat (h + 1)) := by
        rw [← hrn]
        exact jsParseInt_renderNat (h + 1) (by omega)
      rw [hpmv, splitOnColon_no_colon (c0 :: rt) hnc1]
      exact hourMinute12_eval_nomin pm _ (h + 1) hph (by omega) (by omega)
  · intro s now hh mm hp hval
    unfold parseTimeToDate_v0
    rw [hp]
    dsimp only
    rw [if_neg hval]
    by_cases hs : setHours now hh mm 0 0 ≤ now
    · right
      rw [if_pos hs]
    · left
      rw [if_neg hs]

/-- Witness for `twelve_hour_normalization`: `"7:30 PM"` normalizes to
hour 19, minute 30. -/
theorem twelve_hour_normalization_witness :
    (6 < 12 ∧ 30 < 60)
    ∧ parseHM_v0 (mkInput12 (6 + 1) 30 true false false true true)
        = (some (Int.ofNat (expectedHour (6 + 1) true)), some (Int.ofNat 30)) :=
  ⟨⟨by decide, by decide⟩,
    twelve_hour_normalization.1 6 (by decide) 30 (by decide) true false true⟩
